import Mathlib

/-!
Verification of the ply-to-las transformer core (src/transformer.py).

The development shallowly embeds the two functions that the specification
describes — `ply_to_array` (the Point Merger) and `generate_las_from_ply`
(the Extent Writer) — over exact rationals.  Numeric arrays become
`List ℚ`, the external geo-projection collaborator `scanalyzer_to_utm`
becomes an abstract pure argument `proj : ℚ → ℚ → ℚ × ℚ` applied
elementwise, and exceptional termination of the Python code (unbound
locals on an empty input list, `np.min` on an empty array) becomes
`Option.none`.
-/

namespace PlyToLas

/-- MM_PER_METER constant (transformer.py line 16). -/
def MM_PER_METER : ℚ := 1000

/-- Conversion performed by `perform_process` (line 156): the metadata
field `scan_distance_mm` is divided by `MM_PER_METER` before being passed
to `ply_to_array` as `scan_distance`. -/
def scanDistanceOfMm (mm : ℚ) : ℚ := mm / MM_PER_METER

/-- Georeferenced origin point with components x, y, z, as read from the
job metadata key `point_cloud_origin_m`. -/
structure Origin where
  x : ℚ
  y : ℚ
  z : ℚ
deriving DecidableEq, Repr

/-- One input PLY capture: the file path it was read from plus the three
raw vertex coordinate lists produced by the PLY reader collaborator. -/
structure Capture where
  path : String
  x : List ℚ
  y : List ℚ
  z : List ℚ
deriving DecidableEq, Repr

/-- The characters of the side tag searched for in file names. -/
def westChars : List Char := ['w', 'e', 's', 't']

/-- Substring search over character lists, modelling `str.find(sub) > -1`. -/
def hasSubstrAux (pat : List Char) : List Char → Bool
  | [] => pat.isEmpty
  | c :: rest => List.isPrefixOf pat (c :: rest) || hasSubstrAux pat rest

/-- Side classification test `plyf.find("west") > -1` (line 32). -/
def containsWest (s : String) : Bool := hasSubstrAux westChars s.data

/-- Per-side camera box offsets in meters (lines 32 to 37):
west gives [2.070, 2.726, 1.135] and east gives [2.070, 0.306, 1.135]. -/
def cambox (path : String) : ℚ × ℚ × ℚ :=
  if containsWest path then (2.070, 2.726, 1.135) else (2.070, 0.306, 1.135)

/-- The x correction applied to one raw value (line 45):
fix_x = merged_x + cambox[0] + 0.082. -/
def fixXVal (path : String) (v : ℚ) : ℚ := v + (cambox path).1 + 0.082

/-- The side and direction dependent constant of the y correction
(lines 47 to 48 and 54 to 55). -/
def yConst (path : String) (scan_direction : ℤ) : ℚ :=
  if scan_direction = 0 then
    (if containsWest path then -4.363 else -0.354)
  else
    (if containsWest path then -3.43 else 4.2)

/-- The y correction applied to one raw value (lines 47 and 54):
fix_y = merged_y + 2.0*cambox[1] - scan_distance/2.0 + yConst. -/
def fixYVal (path : String) (scan_direction : ℤ) (scan_distance : ℚ) (v : ℚ) : ℚ :=
  v + 2 * (cambox path).2.1 - scan_distance / 2 + yConst path scan_direction

/-- The constant added to the y anchor term, depending on scan direction
(lines 51 and 58): -0.1 for direction 0 and +0.4 otherwise. -/
def anchorYTerm (scan_direction : ℤ) : ℚ := if scan_direction = 0 then -0.1 else 0.4

/-- The z correction applied to one raw value (line 60):
fix_z = merged_z + cambox[2]. -/
def fixZVal (path : String) (v : ℚ) : ℚ := v + (cambox path).2.2

/-- Per-job parameters of a merge run: the projection collaborator and the
scan metadata.  The georeferencing flag `utm` is kept separate because the
per-capture arrays do not depend on it. -/
structure Ctx where
  proj : ℚ → ℚ → ℚ × ℚ
  scan_distance : ℚ
  scan_direction : ℤ
  origin : Origin

/-- The arrays computed for one capture inside the loop body of
`ply_to_array` (lines 32 to 61). -/
structure CaptureArrays where
  fix_x : List ℚ
  fix_y : List ℚ
  utm_x : List ℚ
  utm_y : List ℚ
  utm_z : List ℚ

/-- Loop body of `ply_to_array` up to line 61: compute the corrected
arrays, the anchor frame coordinates, and the projected utm arrays for one
capture.  The projection is applied elementwise to the pair of anchor
arrays. -/
def processCapture (ctx : Ctx) (c : Capture) : CaptureArrays :=
  let fx := c.x.map (fixXVal c.path)
  let fy := c.y.map (fixYVal c.path ctx.scan_direction ctx.scan_distance)
  let ax := fx.map (fun v => v * 0.001 + ctx.origin.x)
  let ay := fy.map (fun v => v * 0.001 + ctx.origin.y / 2 + anchorYTerm ctx.scan_direction)
  let pr := (ax.zip ay).map (fun p => ctx.proj p.1 p.2)
  let fz := c.z.map (fixZVal c.path)
  { fix_x := fx
    fix_y := fy
    utm_x := pr.map Prod.fst
    utm_y := pr.map Prod.snd
    utm_z := fz.map (fun v => v * 0.001 + ctx.origin.z) }

/-- np.min over a list of rationals: none on an empty array (where numpy
raises), otherwise the least element. -/
def listMin : List ℚ → Option ℚ
  | [] => none
  | v :: vs => some (vs.foldl min v)

/-- np.max over a list of rationals: none on an empty array (where numpy
raises), otherwise the greatest element. -/
def listMax : List ℚ → Option ℚ
  | [] => none
  | v :: vs => some (vs.foldl max v)

/-- The x values appended to the accumulating arrays for one capture
(lines 65 to 70 and 80 to 85): the projected values when `utm` is true,
the corrected gantry values otherwise. -/
def sel_x (ctx : Ctx) (utm : Bool) (c : Capture) : List ℚ :=
  if utm then (processCapture ctx c).utm_x else (processCapture ctx c).fix_x

/-- The y values appended to the accumulating arrays for one capture. -/
def sel_y (ctx : Ctx) (utm : Bool) (c : Capture) : List ℚ :=
  if utm then (processCapture ctx c).utm_y else (processCapture ctx c).fix_y

/-- The z values appended to the accumulating arrays for one capture
(lines 71 and 86): always the utm_z array. -/
def sel_z (ctx : Ctx) (c : Capture) : List ℚ :=
  (processCapture ctx c).utm_z

/-- The loop state of `ply_to_array`: the accumulated point arrays and the
running utm bounds. -/
structure MergeState where
  x_pts : List ℚ
  y_pts : List ℚ
  z_pts : List ℚ
  min_x_utm : ℚ
  min_y_utm : ℚ
  max_x_utm : ℚ
  max_y_utm : ℚ
deriving DecidableEq, Repr

/-- The four numpy extrema of the projected arrays of one capture
(lines 73 to 76 and 88 to 91), as the tuple (min utm_x, min utm_y,
max utm_x, max utm_y); none when the arrays are empty and numpy raises. -/
def captureExtrema (ctx : Ctx) (c : Capture) : Option (ℚ × ℚ × ℚ × ℚ) :=
  match listMin (processCapture ctx c).utm_x, listMin (processCapture ctx c).utm_y,
        listMax (processCapture ctx c).utm_x, listMax (processCapture ctx c).utm_y with
  | some mnx, some mny, some mxx, some mxy => some (mnx, mny, mxx, mxy)
  | _, _, _, _ => none

/-- First loop iteration of `ply_to_array` (lines 64 to 78): seed the
arrays with this capture and the bounds with its utm extrema.  Fails
(as numpy does) when the projected arrays are empty. -/
def initState (ctx : Ctx) (utm : Bool) (c : Capture) : Option MergeState :=
  match captureExtrema ctx c with
  | some (mnx, mny, mxx, mxy) =>
    some { x_pts := sel_x ctx utm c
           y_pts := sel_y ctx utm c
           z_pts := sel_z ctx c
           min_x_utm := mnx
           min_y_utm := mny
           max_x_utm := mxx
           max_y_utm := mxy }
  | none => none

/-- Later loop iterations of `ply_to_array` (lines 79 to 96): concatenate
this capture onto the arrays and fold its utm extrema into the running
bounds with the conditional expressions of lines 93 to 96. -/
def stepState (ctx : Ctx) (utm : Bool) (st : MergeState) (c : Capture) : Option MergeState :=
  match captureExtrema ctx c with
  | some (mnx2, mny2, mxx2, mxy2) =>
    some { x_pts := st.x_pts ++ sel_x ctx utm c
           y_pts := st.y_pts ++ sel_y ctx utm c
           z_pts := st.z_pts ++ sel_z ctx c
           min_x_utm := if st.min_x_utm < mnx2 then st.min_x_utm else mnx2
           min_y_utm := if st.min_y_utm < mny2 then st.min_y_utm else mny2
           max_x_utm := if st.max_x_utm > mxx2 then st.max_x_utm else mxx2
           max_y_utm := if st.max_y_utm > mxy2 then st.max_y_utm else mxy2 }
  | none => none

/-- The remaining loop iterations after the first, threading the state. -/
def mergeAux (ctx : Ctx) (utm : Bool) : List Capture → MergeState → Option MergeState
  | [], st => some st
  | c :: rest, st =>
    match stepState ctx utm st c with
    | none => none
    | some st2 => mergeAux ctx utm rest st2

/-- The value returned by `ply_to_array` (line 100): the three merged
arrays and the bounds tuple (min_y_utm, max_y_utm, min_x_utm, max_x_utm). -/
structure MergedResult where
  x_pts : List ℚ
  y_pts : List ℚ
  z_pts : List ℚ
  bounds : ℚ × ℚ × ℚ × ℚ
deriving DecidableEq, Repr

/-- Lines 98 to 100: package the final loop state into the returned tuple,
with the bounds in the order (min_y_utm, max_y_utm, min_x_utm, max_x_utm). -/
def finishMerge : Option MergeState → Option MergedResult
  | none => none
  | some st =>
    some { x_pts := st.x_pts
           y_pts := st.y_pts
           z_pts := st.z_pts
           bounds := (st.min_y_utm, st.max_y_utm, st.min_x_utm, st.max_x_utm) }

/-- ply_to_array (lines 18 to 100).  `none` models the exceptions of the
Python function: the unbound locals reached from an empty input list and
the numpy errors on empty per-capture arrays. -/
def ply_to_array (proj : ℚ → ℚ → ℚ × ℚ) (input_paths : List Capture) (scan_distance : ℚ)
    (scan_direction : ℤ) (point_cloud_origin : Origin) (utm : Bool) : Option MergedResult :=
  match input_paths with
  | [] => none
  | c :: rest =>
    match initState ⟨proj, scan_distance, scan_direction, point_cloud_origin⟩ utm c with
    | none => none
    | some st0 =>
      finishMerge (mergeAux ⟨proj, scan_distance, scan_direction, point_cloud_origin⟩ utm rest st0)

/-- The output artifact of `generate_las_from_ply` (lines 117 to 135): the
LAS header fields it sets and the coordinate arrays it writes.  The data
written to the x axis of the file is the merged y array and conversely. -/
structure LasOutput where
  offset : List ℤ
  scale : List ℚ
  x_data : List ℚ
  y_data : List ℚ
  z_data : List ℚ
  x_max : ℚ
  x_min : ℚ
  y_max : ℚ
  y_min : ℚ
  z_max : ℚ
  z_min : ℚ
deriving DecidableEq, Repr

/-- generate_las_from_ply (lines 103 to 137): run `ply_to_array`, build
the header offset from floors of minima with the x and y axes swapped,
select the scale by the `utm` flag, write the swapped arrays and the
per-axis extrema, and return the bounds. -/
def generate_las_from_ply (proj : ℚ → ℚ → ℚ × ℚ) (input_paths : List Capture)
    (output_path : String) (scan_distance : ℚ) (scan_direction : ℤ)
    (point_cloud_origin : Origin) (utm : Bool) : Option (LasOutput × (ℚ × ℚ × ℚ × ℚ)) :=
  match ply_to_array proj input_paths scan_distance scan_direction point_cloud_origin utm with
  | none => none
  | some r =>
    match listMin r.y_pts, listMin r.x_pts, listMin r.z_pts,
          listMax r.y_pts, listMax r.x_pts, listMax r.z_pts with
    | some mny, some mnx, some mnz, some mxy, some mxx, some mxz =>
      some ({ offset := [⌊mny⌋, ⌊mnx⌋, ⌊mnz⌋]
              scale := if utm then [0.000001, 0.000001, 0.000001] else [1, 1, 0.000001]
              x_data := r.y_pts
              y_data := r.x_pts
              z_data := r.z_pts
              x_max := mxy
              x_min := mny
              y_max := mxx
              y_min := mnx
              z_max := mxz
              z_min := mnz }, r.bounds)
    | _, _, _, _, _, _ => none

/-- All projected utm x values of a capture list, in capture order. -/
def allUtmX (ctx : Ctx) (caps : List Capture) : List ℚ :=
  (caps.map (fun c => (processCapture ctx c).utm_x)).flatten

/-- All projected utm y values of a capture list, in capture order. -/
def allUtmY (ctx : Ctx) (caps : List Capture) : List ℚ :=
  (caps.map (fun c => (processCapture ctx c).utm_y)).flatten

/-! Helper lemmas about minima, maxima and the merge fold. -/

theorem min_if (a b : ℚ) : (if a < b then a else b) = min a b := by
  rcases le_or_lt b a with h | h
  · rw [if_neg (not_lt.mpr h), min_eq_right h]
  · rw [if_pos h, min_eq_left h.le]

theorem max_if (a b : ℚ) : (if a > b then a else b) = max a b := by
  rcases le_or_lt a b with h | h
  · rw [if_neg (not_lt.mpr h), max_eq_right h]
  · rw [if_pos h, max_eq_left h.le]

theorem foldl_min_min (a b : ℚ) (l : List ℚ) :
    l.foldl min (min a b) = min a (l.foldl min b) := by
  induction l generalizing b with
  | nil => rfl
  | cons c t ih => simp only [List.foldl_cons]; rw [min_assoc, ih]

theorem foldl_max_max (a b : ℚ) (l : List ℚ) :
    l.foldl max (max a b) = max a (l.foldl max b) := by
  induction l generalizing b with
  | nil => rfl
  | cons c t ih => simp only [List.foldl_cons]; rw [max_assoc, ih]

theorem foldl_min_le_init (a : ℚ) (l : List ℚ) : l.foldl min a ≤ a := by
  induction l generalizing a with
  | nil => exact le_refl a
  | cons c t ih =>
    simp only [List.foldl_cons]
    exact le_trans (ih (min a c)) (min_le_left a c)

theorem foldl_min_le_mem {x : ℚ} {l : List ℚ} (hx : x ∈ l) : ∀ a, l.foldl min a ≤ x := by
  induction l with
  | nil => cases hx
  | cons c t ih =>
    intro a
    rw [List.foldl_cons]
    rcases List.mem_cons.mp hx with h | h
    · subst h
      exact le_trans (foldl_min_le_init _ t) (min_le_right _ _)
    · exact ih h _

theorem init_le_foldl_max (a : ℚ) (l : List ℚ) : a ≤ l.foldl max a := by
  induction l generalizing a with
  | nil => exact le_refl a
  | cons c t ih =>
    simp only [List.foldl_cons]
    exact le_trans (le_max_left a c) (ih (max a c))

theorem mem_le_foldl_max {x : ℚ} {l : List ℚ} (hx : x ∈ l) : ∀ a, x ≤ l.foldl max a := by
  induction l with
  | nil => cases hx
  | cons c t ih =>
    intro a
    rw [List.foldl_cons]
    rcases List.mem_cons.mp hx with h | h
    · subst h
      exact le_trans (le_max_right _ _) (init_le_foldl_max _ t)
    · exact ih h _

theorem listMin_eq_some {l : List ℚ} {m : ℚ} (h : listMin l = some m) :
    ∃ v vs, l = v :: vs ∧ m = vs.foldl min v := by
  cases l with
  | nil => cases h
  | cons v vs => exact ⟨v, vs, rfl, (Option.some.inj h).symm⟩

theorem listMax_eq_some {l : List ℚ} {m : ℚ} (h : listMax l = some m) :
    ∃ v vs, l = v :: vs ∧ m = vs.foldl max v := by
  cases l with
  | nil => cases h
  | cons v vs => exact ⟨v, vs, rfl, (Option.some.inj h).symm⟩

theorem listMin_le {l : List ℚ} {m x : ℚ} (h : listMin l = some m) (hx : x ∈ l) : m ≤ x := by
  obtain ⟨v, vs, rfl, rfl⟩ := listMin_eq_some h
  rcases List.mem_cons.mp hx with h1 | h1
  · subst h1; exact foldl_min_le_init x vs
  · exact foldl_min_le_mem h1 v

theorem le_listMax {l : List ℚ} {m x : ℚ} (h : listMax l = some m) (hx : x ∈ l) : x ≤ m := by
  obtain ⟨v, vs, rfl, rfl⟩ := listMax_eq_some h
  rcases List.mem_cons.mp hx with h1 | h1
  · subst h1; exact init_le_foldl_max x vs
  · exact mem_le_foldl_max h1 v

theorem captureExtrema_eq_some {ctx : Ctx} {c : Capture} {e : ℚ × ℚ × ℚ × ℚ}
    (h : captureExtrema ctx c = some e) :
    listMin (processCapture ctx c).utm_x = some e.1 ∧
    listMin (processCapture ctx c).utm_y = some e.2.1 ∧
    listMax (processCapture ctx c).utm_x = some e.2.2.1 ∧
    listMax (processCapture ctx c).utm_y = some e.2.2.2 := by
  obtain ⟨e1, e2, e3, e4⟩ := e
  cases h1 : listMin (processCapture ctx c).utm_x <;>
    cases h2 : listMin (processCapture ctx c).utm_y <;>
      cases h3 : listMax (processCapture ctx c).utm_x <;>
        cases h4 : listMax (processCapture ctx c).utm_y <;>
          simp_all [captureExtrema]

theorem initState_none {ctx : Ctx} {u : Bool} {c : Capture}
    (he : captureExtrema ctx c = none) : initState ctx u c = none := by
  simp [initState, he]

theorem initState_some {ctx : Ctx} {u : Bool} {c : Capture} {e : ℚ × ℚ × ℚ × ℚ}
    (he : captureExtrema ctx c = some e) :
    initState ctx u c =
      some ⟨sel_x ctx u c, sel_y ctx u c, sel_z ctx c, e.1, e.2.1, e.2.2.1, e.2.2.2⟩ := by
  obtain ⟨e1, e2, e3, e4⟩ := e
  simp [initState, he]

theorem stepState_none {ctx : Ctx} {u : Bool} {st : MergeState} {c : Capture}
    (he : captureExtrema ctx c = none) : stepState ctx u st c = none := by
  simp [stepState, he]

theorem stepState_some {ctx : Ctx} {u : Bool} {st : MergeState} {c : Capture}
    {e : ℚ × ℚ × ℚ × ℚ} (he : captureExtrema ctx c = some e) :
    stepState ctx u st c =
      some ⟨st.x_pts ++ sel_x ctx u c, st.y_pts ++ sel_y ctx u c, st.z_pts ++ sel_z ctx c,
            min st.min_x_utm e.1, min st.min_y_utm e.2.1,
            max st.max_x_utm e.2.2.1, max st.max_y_utm e.2.2.2⟩ := by
  obtain ⟨e1, e2, e3, e4⟩ := e
  simp [stepState, he, min_if, max_if]

theorem allUtmX_cons (ctx : Ctx) (c : Capture) (rest : List Capture) :
    allUtmX ctx (c :: rest) = (processCapture ctx c).utm_x ++ allUtmX ctx rest := by
  simp [allUtmX]

theorem allUtmY_cons (ctx : Ctx) (c : Capture) (rest : List Capture) :
    allUtmY ctx (c :: rest) = (processCapture ctx c).utm_y ++ allUtmY ctx rest := by
  simp [allUtmY]

theorem mergeAux_points (ctx : Ctx) (u : Bool) :
    ∀ (caps : List Capture) (st st2 : MergeState), mergeAux ctx u caps st = some st2 →
      st2.x_pts = st.x_pts ++ (caps.map (sel_x ctx u)).flatten ∧
      st2.y_pts = st.y_pts ++ (caps.map (sel_y ctx u)).flatten ∧
      st2.z_pts = st.z_pts ++ (caps.map (sel_z ctx)).flatten := by
  intro caps
  induction caps with
  | nil =>
    intro st st2 h
    obtain rfl := Option.some.inj h
    simp
  | cons c rest ih =>
    intro st stF h
    cases he : captureExtrema ctx c with
    | none =>
      have h0 : mergeAux ctx u (c :: rest) st = none := by
        simp only [mergeAux, stepState_none he]
      rw [h0] at h; cases h
    | some e =>
      rw [show mergeAux ctx u (c :: rest) st =
            match stepState ctx u st c with
            | none => none
            | some st2 => mergeAux ctx u rest st2 from rfl,
          stepState_some he] at h
      have h2 : mergeAux ctx u rest
          ⟨st.x_pts ++ sel_x ctx u c, st.y_pts ++ sel_y ctx u c, st.z_pts ++ sel_z ctx c,
           min st.min_x_utm e.1, min st.min_y_utm e.2.1,
           max st.max_x_utm e.2.2.1, max st.max_y_utm e.2.2.2⟩ = some stF := h
      have hb := ih _ _ h2
      have hx : stF.x_pts = (st.x_pts ++ sel_x ctx u c) ++ (rest.map (sel_x ctx u)).flatten := hb.1
      have hy : stF.y_pts = (st.y_pts ++ sel_y ctx u c) ++ (rest.map (sel_y ctx u)).flatten := hb.2.1
      have hz : stF.z_pts = (st.z_pts ++ sel_z ctx c) ++ (rest.map (sel_z ctx)).flatten := hb.2.2
      refine ⟨?_, ?_, ?_⟩ <;> simp [hx, hy, hz, List.append_assoc]

theorem mergeAux_bounds (ctx : Ctx) (u : Bool) :
    ∀ (caps : List Capture) (st st2 : MergeState), mergeAux ctx u caps st = some st2 →
      st2.min_x_utm = (allUtmX ctx caps).foldl min st.min_x_utm ∧
      st2.min_y_utm = (allUtmY ctx caps).foldl min st.min_y_utm ∧
      st2.max_x_utm = (allUtmX ctx caps).foldl max st.max_x_utm ∧
      st2.max_y_utm = (allUtmY ctx caps).foldl max st.max_y_utm := by
  intro caps
  induction caps with
  | nil =>
    intro st st2 h
    obtain rfl := Option.some.inj h
    simp [allUtmX, allUtmY]
  | cons c rest ih =>
    intro st stF h
    cases he : captureExtrema ctx c with
    | none =>
      have h0 : mergeAux ctx u (c :: rest) st = none := by
        simp only [mergeAux, stepState_none he]
      rw [h0] at h; cases h
    | some e =>
      rw [show mergeAux ctx u (c :: rest) st =
            match stepState ctx u st c with
            | none => none
            | some st2 => mergeAux ctx u rest st2 from rfl,
          stepState_some he] at h
      have h2 : mergeAux ctx u rest
          ⟨st.x_pts ++ sel_x ctx u c, st.y_pts ++ sel_y ctx u c, st.z_pts ++ sel_z ctx c,
           min st.min_x_utm e.1, min st.min_y_utm e.2.1,
           max st.max_x_utm e.2.2.1, max st.max_y_utm e.2.2.2⟩ = some stF := h
      have hb := ih _ _ h2
      have b1 : stF.min_x_utm = (allUtmX ctx rest).foldl min (min st.min_x_utm e.1) := hb.1
      have b2 : stF.min_y_utm = (allUtmY ctx rest).foldl min (min st.min_y_utm e.2.1) := hb.2.1
      have b3 : stF.max_x_utm = (allUtmX ctx rest).foldl max (max st.max_x_utm e.2.2.1) := hb.2.2.1
      have b4 : stF.max_y_utm = (allUtmY ctx rest).foldl max (max st.max_y_utm e.2.2.2) := hb.2.2.2
      obtain ⟨hmnx, hmny, hmxx, hmxy⟩ := captureExtrema_eq_some he
      obtain ⟨vx, vxs, hvx, hex⟩ := listMin_eq_some hmnx
      obtain ⟨vy, vys, hvy, hey⟩ := listMin_eq_some hmny
      obtain ⟨wx, wxs, hwx, hex2⟩ := listMax_eq_some hmxx
      obtain ⟨wy, wys, hwy, hey2⟩ := listMax_eq_some hmxy
      refine ⟨?_, ?_, ?_, ?_⟩
      · rw [b1]
        conv_rhs => rw [allUtmX_cons, hvx, List.foldl_append, List.foldl_cons,
          foldl_min_min, ← hex]
      · rw [b2]
        conv_rhs => rw [allUtmY_cons, hvy, List.foldl_append, List.foldl_cons,
          foldl_min_min, ← hey]
      · rw [b3]
        conv_rhs => rw [allUtmX_cons, hwx, List.foldl_append, List.foldl_cons,
          foldl_max_max, ← hex2]
      · rw [b4]
        conv_rhs => rw [allUtmY_cons, hwy, List.foldl_append, List.foldl_cons,
          foldl_max_max, ← hey2]

theorem mergeAux_isSome (ctx : Ctx) :
    ∀ (caps : List Capture) (u1 u2 : Bool) (st1 st2 : MergeState),
      (mergeAux ctx u1 caps st1).isSome = (mergeAux ctx u2 caps st2).isSome := by
  intro caps
  induction caps with
  | nil => intro u1 u2 st1 st2; rfl
  | cons c rest ih =>
    intro u1 u2 st1 st2
    simp only [mergeAux]
    cases he : captureExtrema ctx c with
    | none => rw [stepState_none he, stepState_none he]
    | some e => rw [stepState_some he, stepState_some he]; exact ih u1 u2 _ _

theorem ply_to_array_eq_some {proj : ℚ → ℚ → ℚ × ℚ} {caps : List Capture} {d : ℚ}
    {dir : ℤ} {o : Origin} {u : Bool} {r : MergedResult}
    (h : ply_to_array proj caps d dir o u = some r) :
    ∃ c rest st0 st, caps = c :: rest ∧
      initState ⟨proj, d, dir, o⟩ u c = some st0 ∧
      mergeAux ⟨proj, d, dir, o⟩ u rest st0 = some st ∧
      r = ⟨st.x_pts, st.y_pts, st.z_pts,
           (st.min_y_utm, st.max_y_utm, st.min_x_utm, st.max_x_utm)⟩ := by
  cases caps with
  | nil => cases h
  | cons c rest =>
    simp only [ply_to_array] at h
    cases hi : initState ⟨proj, d, dir, o⟩ u c with
    | none => rw [hi] at h; simp at h
    | some st0 =>
      rw [hi] at h
      have h2 : finishMerge (mergeAux ⟨proj, d, dir, o⟩ u rest st0) = some r := h
      cases hm : mergeAux ⟨proj, d, dir, o⟩ u rest st0 with
      | none => rw [hm] at h2; cases h2
      | some st =>
        rw [hm] at h2
        simp only [finishMerge] at h2
        exact ⟨c, rest, st0, st, rfl, hi, hm, (Option.some.inj h2).symm⟩

theorem ply_points {proj : ℚ → ℚ → ℚ × ℚ} {caps : List Capture} {d : ℚ}
    {dir : ℤ} {o : Origin} {u : Bool} {r : MergedResult}
    (h : ply_to_array proj caps d dir o u = some r) :
    r.x_pts = (caps.map (sel_x ⟨proj, d, dir, o⟩ u)).flatten ∧
    r.y_pts = (caps.map (sel_y ⟨proj, d, dir, o⟩ u)).flatten ∧
    r.z_pts = (caps.map (sel_z ⟨proj, d, dir, o⟩)).flatten := by
  obtain ⟨c, rest, st0, st, rfl, hi, hm, rfl⟩ := ply_to_array_eq_some h
  cases he : captureExtrema ⟨proj, d, dir, o⟩ c with
  | none => rw [initState_none he] at hi; cases hi
  | some e =>
    rw [initState_some he] at hi
    obtain rfl := (Option.some.inj hi).symm
    obtain ⟨hx, hy, hz⟩ := mergeAux_points _ _ rest _ st hm
    exact ⟨by simp [hx], by simp [hy], by simp [hz]⟩

theorem ply_bounds {proj : ℚ → ℚ → ℚ × ℚ} {caps : List Capture} {d : ℚ}
    {dir : ℤ} {o : Origin} {u : Bool} {r : MergedResult}
    (h : ply_to_array proj caps d dir o u = some r) :
    listMin (allUtmY ⟨proj, d, dir, o⟩ caps) = some r.bounds.1 ∧
    listMax (allUtmY ⟨proj, d, dir, o⟩ caps) = some r.bounds.2.1 ∧
    listMin (allUtmX ⟨proj, d, dir, o⟩ caps) = some r.bounds.2.2.1 ∧
    listMax (allUtmX ⟨proj, d, dir, o⟩ caps) = some r.bounds.2.2.2 := by
  obtain ⟨c, rest, st0, st, rfl, hi, hm, rfl⟩ := ply_to_array_eq_some h
  cases he : captureExtrema ⟨proj, d, dir, o⟩ c with
  | none => rw [initState_none he] at hi; cases hi
  | some e =>
    rw [initState_some he] at hi
    obtain rfl := (Option.some.inj hi).symm
    have hb := mergeAux_bounds _ _ rest _ st hm
    have b1 : st.min_x_utm = (allUtmX ⟨proj, d, dir, o⟩ rest).foldl min e.1 := hb.1
    have b2 : st.min_y_utm = (allUtmY ⟨proj, d, dir, o⟩ rest).foldl min e.2.1 := hb.2.1
    have b3 : st.max_x_utm = (allUtmX ⟨proj, d, dir, o⟩ rest).foldl max e.2.2.1 := hb.2.2.1
    have b4 : st.max_y_utm = (allUtmY ⟨proj, d, dir, o⟩ rest).foldl max e.2.2.2 := hb.2.2.2
    obtain ⟨hmnx, hmny, hmxx, hmxy⟩ := captureExtrema_eq_some he
    obtain ⟨vx, vxs, hvx, hex⟩ := listMin_eq_some hmnx
    obtain ⟨vy, vys, hvy, hey⟩ := listMin_eq_some hmny
    obtain ⟨wx, wxs, hwx, hex2⟩ := listMax_eq_some hmxx
    obtain ⟨wy, wys, hwy, hey2⟩ := listMax_eq_some hmxy
    refine ⟨?_, ?_, ?_, ?_⟩
    · show listMin (allUtmY ⟨proj, d, dir, o⟩ (c :: rest)) = some st.min_y_utm
      rw [allUtmY_cons, hvy, List.cons_append]
      simp only [listMin]
      rw [List.foldl_append, ← hey, ← b2]
    · show listMax (allUtmY ⟨proj, d, dir, o⟩ (c :: rest)) = some st.max_y_utm
      rw [allUtmY_cons, hwy, List.cons_append]
      simp only [listMax]
      rw [List.foldl_append, ← hey2, ← b4]
    · show listMin (allUtmX ⟨proj, d, dir, o⟩ (c :: rest)) = some st.min_x_utm
      rw [allUtmX_cons, hvx, List.cons_append]
      simp only [listMin]
      rw [List.foldl_append, ← hex, ← b1]
    · show listMax (allUtmX ⟨proj, d, dir, o⟩ (c :: rest)) = some st.max_x_utm
      rw [allUtmX_cons, hwx, List.cons_append]
      simp only [listMax]
      rw [List.foldl_append, ← hex2, ← b3]

theorem finishMerge_isSome (m : Option MergeState) : (finishMerge m).isSome = m.isSome := by
  cases m <;> rfl

theorem ply_isSome_indep (proj : ℚ → ℚ → ℚ × ℚ) (caps : List Capture) (d : ℚ)
    (dir : ℤ) (o : Origin) :
    (ply_to_array proj caps d dir o true).isSome =
      (ply_to_array proj caps d dir o false).isSome := by
  cases caps with
  | nil => rfl
  | cons c rest =>
    simp only [ply_to_array]
    cases he : captureExtrema ⟨proj, d, dir, o⟩ c with
    | none => rw [initState_none he, initState_none he]
    | some e =>
      rw [initState_some he, initState_some he]
      show (finishMerge (mergeAux ⟨proj, d, dir, o⟩ true rest
          ⟨sel_x ⟨proj, d, dir, o⟩ true c, sel_y ⟨proj, d, dir, o⟩ true c,
           sel_z ⟨proj, d, dir, o⟩ c, e.1, e.2.1, e.2.2.1, e.2.2.2⟩)).isSome =
        (finishMerge (mergeAux ⟨proj, d, dir, o⟩ false rest
          ⟨sel_x ⟨proj, d, dir, o⟩ false c, sel_y ⟨proj, d, dir, o⟩ false c,
           sel_z ⟨proj, d, dir, o⟩ c, e.1, e.2.1, e.2.2.1, e.2.2.2⟩)).isSome
      rw [finishMerge_isSome, finishMerge_isSome]
      exact mergeAux_isSome ⟨proj, d, dir, o⟩ rest true false _ _

/-! Congruence of the merge in the per-capture computation: every part of
the fold depends on the context only through `processCapture`. -/

theorem sel_x_congr {ctx1 ctx2 : Ctx} (h : ∀ c, processCapture ctx1 c = processCapture ctx2 c)
    (u : Bool) (c : Capture) : sel_x ctx1 u c = sel_x ctx2 u c := by
  simp [sel_x, h c]

theorem sel_y_congr {ctx1 ctx2 : Ctx} (h : ∀ c, processCapture ctx1 c = processCapture ctx2 c)
    (u : Bool) (c : Capture) : sel_y ctx1 u c = sel_y ctx2 u c := by
  simp [sel_y, h c]

theorem sel_z_congr {ctx1 ctx2 : Ctx} (h : ∀ c, processCapture ctx1 c = processCapture ctx2 c)
    (c : Capture) : sel_z ctx1 c = sel_z ctx2 c := by
  simp [sel_z, h c]

theorem captureExtrema_congr {ctx1 ctx2 : Ctx}
    (h : ∀ c, processCapture ctx1 c = processCapture ctx2 c) (c : Capture) :
    captureExtrema ctx1 c = captureExtrema ctx2 c := by
  simp only [captureExtrema, h c]

theorem initState_congr {ctx1 ctx2 : Ctx}
    (h : ∀ c, processCapture ctx1 c = processCapture ctx2 c) (u : Bool) (c : Capture) :
    initState ctx1 u c = initState ctx2 u c := by
  simp only [initState, captureExtrema_congr h c, sel_x_congr h u c, sel_y_congr h u c,
    sel_z_congr h c]

theorem stepState_congr {ctx1 ctx2 : Ctx}
    (h : ∀ c, processCapture ctx1 c = processCapture ctx2 c) (u : Bool) (st : MergeState)
    (c : Capture) : stepState ctx1 u st c = stepState ctx2 u st c := by
  simp only [stepState, captureExtrema_congr h c, sel_x_congr h u c, sel_y_congr h u c,
    sel_z_congr h c]

theorem mergeAux_congr {ctx1 ctx2 : Ctx}
    (h : ∀ c, processCapture ctx1 c = processCapture ctx2 c) :
    ∀ (caps : List Capture) (u : Bool) (st : MergeState),
      mergeAux ctx1 u caps st = mergeAux ctx2 u caps st := by
  intro caps
  induction caps with
  | nil => intro u st; rfl
  | cons c rest ih =>
    intro u st
    simp only [mergeAux]
    rw [stepState_congr h u st c]
    cases hs : stepState ctx2 u st c with
    | none => rfl
    | some st2 => exact ih u st2

theorem ply_congr {proj : ℚ → ℚ → ℚ × ℚ} {d : ℚ} {dir1 dir2 : ℤ} {o : Origin}
    (h : ∀ c, processCapture ⟨proj, d, dir1, o⟩ c = processCapture ⟨proj, d, dir2, o⟩ c) :
    ∀ (caps : List Capture) (u : Bool),
      ply_to_array proj caps d dir1 o u = ply_to_array proj caps d dir2 o u := by
  intro caps u
  cases caps with
  | nil => rfl
  | cons c rest =>
    simp only [ply_to_array]
    rw [initState_congr h u c]
    cases hi : initState ⟨proj, d, dir2, o⟩ u c with
    | none => rfl
    | some st0 =>
      show finishMerge (mergeAux ⟨proj, d, dir1, o⟩ u rest st0) =
        finishMerge (mergeAux ⟨proj, d, dir2, o⟩ u rest st0)
      rw [mergeAux_congr h rest u st0]

theorem fixYVal_dir_ne {p : String} {dir : ℤ} {d : ℚ} (h : dir ≠ 0) :
    fixYVal p dir d = fixYVal p 1 d := by
  funext v
  simp [fixYVal, yConst, h]

theorem processCapture_dir_ne {proj : ℚ → ℚ → ℚ × ℚ} {d : ℚ} {o : Origin} {dir : ℤ}
    (h : dir ≠ 0) (c : Capture) :
    processCapture ⟨proj, d, dir, o⟩ c = processCapture ⟨proj, d, 1, o⟩ c := by
  simp [processCapture, fixYVal_dir_ne h, anchorYTerm, h]

/-! Length facts for the per-capture arrays. -/

theorem fix_x_length (ctx : Ctx) (c : Capture) :
    (processCapture ctx c).fix_x.length = c.x.length := by
  simp [processCapture]

theorem fix_y_length (ctx : Ctx) (c : Capture) :
    (processCapture ctx c).fix_y.length = c.y.length := by
  simp [processCapture]

theorem utm_z_length (ctx : Ctx) (c : Capture) :
    (processCapture ctx c).utm_z.length = c.z.length := by
  simp [processCapture]

theorem utm_x_length (ctx : Ctx) (c : Capture) :
    (processCapture ctx c).utm_x.length = min c.x.length c.y.length := by
  simp [processCapture]

theorem utm_y_length (ctx : Ctx) (c : Capture) :
    (processCapture ctx c).utm_y.length = min c.x.length c.y.length := by
  simp [processCapture]

theorem sel_x_false_length (ctx : Ctx) (c : Capture) :
    (sel_x ctx false c).length = c.x.length := by
  simp [sel_x, fix_x_length]

theorem sel_y_false_length (ctx : Ctx) (c : Capture) :
    (sel_y ctx false c).length = c.y.length := by
  simp [sel_y, fix_y_length]

theorem sel_z_length (ctx : Ctx) (c : Capture) :
    (sel_z ctx c).length = c.z.length := by
  simp [sel_z, utm_z_length]

theorem sel_x_length_eq (ctx : Ctx) (u : Bool) (c : Capture)
    (hxy : c.x.length = c.y.length) : (sel_x ctx u c).length = c.x.length := by
  cases u
  · exact sel_x_false_length ctx c
  · simp [sel_x, utm_x_length, hxy]

theorem sel_y_length_eq (ctx : Ctx) (u : Bool) (c : Capture)
    (hxy : c.x.length = c.y.length) : (sel_y ctx u c).length = c.x.length := by
  cases u
  · rw [sel_y_false_length ctx c, hxy]
  · simp [sel_y, utm_y_length, hxy]

theorem sel_x_false (ctx : Ctx) (c : Capture) :
    sel_x ctx false c = (processCapture ctx c).fix_x := by
  simp [sel_x]

theorem sel_y_false (ctx : Ctx) (c : Capture) :
    sel_y ctx false c = (processCapture ctx c).fix_y := by
  simp [sel_y]

theorem processCapture_fix_x (ctx : Ctx) (c : Capture) :
    (processCapture ctx c).fix_x = c.x.map (fixXVal c.path) := rfl

theorem processCapture_fix_y (ctx : Ctx) (c : Capture) :
    (processCapture ctx c).fix_y =
      c.y.map (fixYVal c.path ctx.scan_direction ctx.scan_distance) := rfl

theorem processCapture_utm_z (ctx : Ctx) (c : Capture) :
    (processCapture ctx c).utm_z =
      (c.z.map (fixZVal c.path)).map (fun v => v * 0.001 + ctx.origin.z) := rfl

theorem cambox_x_eq (p : String) : (cambox p).1 = 2.07 := by
  cases hcw : containsWest p <;> simp [cambox, hcw] <;> norm_num

theorem fixXVal_eq (p : String) : fixXVal p = fun v => v + 2.07 + 0.082 := by
  funext v
  rw [fixXVal, cambox_x_eq]

/-! Concrete instances used by the closed counterexamples and witnesses. -/

/-- Identity projection: a pure collaborator that returns its anchor pair
unchanged. -/
def projId (a b : ℚ) : ℚ × ℚ := (a, b)

/-- A file path that does not contain the substring west, so the capture
classifies as east. -/
def eastPath : String := "east_0.ply"

/-- An east capture holding the single raw point (0, 0, 0). -/
def capZeroEast : Capture := ⟨eastPath, [0], [0], [0]⟩

/-- An east capture whose coordinate sequences have mismatched lengths:
two x values but one y and one z value. -/
def capMismatch : Capture := ⟨eastPath, [0, 0], [0], [0]⟩

/-- The origin used in the end-to-end example of the specification. -/
def originTen : Origin := ⟨10, 20, 5⟩

/-- The all-zero origin. -/
def originZero : Origin := ⟨0, 0, 0⟩

/-- The merge result for `capZeroEast` with scan distance 4, direction 0,
origin (10, 20, 5), identity projection and utm set to false. -/
def resDemo : MergedResult :=
  ⟨[2.152], [-1.742], [5.001135], (9.898258, 9.898258, 10.002152, 10.002152)⟩

/-- The merge result of the same run with utm set to true. -/
def resDemoTrue : MergedResult :=
  ⟨[10.002152], [9.898258], [5.001135], (9.898258, 9.898258, 10.002152, 10.002152)⟩

/-- The merge result for `capZeroEast` with scan distance 2000 mm,
direction 0, zero origin, identity projection and utm set to false. -/
def res2000 : MergedResult :=
  ⟨[2.152], [-0.742], [0.001135], (-0.100742, -0.100742, 0.002152, 0.002152)⟩

/-- The merge result for the mismatched capture with scan distance 0,
direction 0, zero origin, identity projection and utm set to false. -/
def mismatchRes : MergedResult :=
  ⟨[2.152, 2.152], [0.258], [0.001135], (-0.099742, -0.099742, 0.002152, 0.002152)⟩

theorem containsWest_eastPath : containsWest eastPath = false := by decide

theorem demo_eval : ply_to_array projId [capZeroEast] 4 0 originTen false = some resDemo := by
  simp only [ply_to_array, initState, captureExtrema, processCapture, sel_x, sel_y, sel_z,
    listMin, listMax, mergeAux, finishMerge, capZeroEast, projId, originTen, resDemo,
    fixXVal, fixYVal, fixZVal, yConst, anchorYTerm, cambox, containsWest_eastPath,
    List.map_cons, List.map_nil, List.zip_cons_cons, List.zip_nil_right, List.foldl_cons,
    List.foldl_nil, Option.some.injEq, MergedResult.mk.injEq, Prod.mk.injEq,
    List.cons.injEq, and_true, List.nil_eq]
  norm_num

theorem demoTrue_eval :
    ply_to_array projId [capZeroEast] 4 0 originTen true = some resDemoTrue := by
  simp only [ply_to_array, initState, captureExtrema, processCapture, sel_x, sel_y, sel_z,
    listMin, listMax, mergeAux, finishMerge, capZeroEast, projId, originTen, resDemoTrue,
    fixXVal, fixYVal, fixZVal, yConst, anchorYTerm, cambox, containsWest_eastPath,
    List.map_cons, List.map_nil, List.zip_cons_cons, List.zip_nil_right, List.foldl_cons,
    List.foldl_nil, Option.some.injEq, MergedResult.mk.injEq, Prod.mk.injEq,
    List.cons.injEq, and_true, List.nil_eq]
  norm_num

theorem res2000_eval :
    ply_to_array projId [capZeroEast] (scanDistanceOfMm 2000) 0 originZero false =
      some res2000 := by
  simp only [ply_to_array, initState, captureExtrema, processCapture, sel_x, sel_y, sel_z,
    listMin, listMax, mergeAux, finishMerge, capZeroEast, projId, originZero, res2000,
    scanDistanceOfMm, MM_PER_METER,
    fixXVal, fixYVal, fixZVal, yConst, anchorYTerm, cambox, containsWest_eastPath,
    List.map_cons, List.map_nil, List.zip_cons_cons, List.zip_nil_right, List.foldl_cons,
    List.foldl_nil, Option.some.injEq, MergedResult.mk.injEq, Prod.mk.injEq,
    List.cons.injEq, and_true, List.nil_eq]
  norm_num

theorem mismatch_eval :
    ply_to_array projId [capMismatch] 0 0 originZero false = some mismatchRes := by
  simp only [ply_to_array, initState, captureExtrema, processCapture, sel_x, sel_y, sel_z,
    listMin, listMax, mergeAux, finishMerge, capMismatch, projId, originZero, mismatchRes,
    fixXVal, fixYVal, fixZVal, yConst, anchorYTerm, cambox, containsWest_eastPath,
    List.map_cons, List.map_nil, List.zip_cons_cons, List.zip_nil_right, List.foldl_cons,
    List.foldl_nil, Option.some.injEq, MergedResult.mk.injEq, Prod.mk.injEq,
    List.cons.injEq, and_true, List.nil_eq]
  norm_num

/-- Output path used in concrete instances of the Extent Writer. -/
def outPath : String := "out.las"

/-! The claims. -/

/-- C1 counterexample: for the east capture with raw point (0, 0, 0) the
merger appends the corrected x value 2.152, which differs from the value
raw_x + offset_x*1000 + 82 = 2152 demanded by the claim: the code adds the
camera offset and the calibration constant in meters, without the
millimeter conversion. -/
theorem c1_counterexample :
    (ply_to_array projId [capZeroEast] 4 0 originTen false).map MergedResult.x_pts =
      some [2.152] ∧ ((2.152 : ℚ) ≠ 0 + 2.07 * 1000 + 82) := by
  constructor
  · rw [demo_eval]; rfl
  · norm_num

/-- C1 (amended): for every merge run, the corrected x values are computed
as fixed_x = raw_x + offset_x + 0.082, where offset_x = 2.070 is the same
for both sides; no factor of 1000 is applied to the constants. -/
theorem c1_x_correction (proj : ℚ → ℚ → ℚ × ℚ) (caps : List Capture) (d : ℚ) (dir : ℤ)
    (o : Origin) (r : MergedResult) (h : ply_to_array proj caps d dir o false = some r) :
    r.x_pts = (caps.map (fun c => c.x.map (fun v => v + 2.07 + 0.082))).flatten := by
  rw [(ply_points h).1]
  congr 1
  refine List.map_congr_left (fun c hc => ?_)
  rw [sel_x_false, processCapture_fix_x, fixXVal_eq]

/-- Witness for C1: the amended x correction evaluated on the east capture
with raw point (0, 0, 0). -/
theorem c1_x_correction_witness :
    ply_to_array projId [capZeroEast] 4 0 originTen false = some resDemo ∧
    resDemo.x_pts =
      ([capZeroEast].map (fun c => c.x.map (fun v => v + 2.07 + 0.082))).flatten :=
  ⟨demo_eval, c1_x_correction projId [capZeroEast] 4 0 originTen resDemo demo_eval⟩

/-- C2 counterexample: for the east capture with raw point (0, 0, 0),
scan_distance_mm = 2000 and direction 0 the merger appends the corrected y
value -0.742, which differs from the value
raw_y + 2*offset_y*1000 - scan_distance_mm/2 + (-354) = -742 demanded by
the claim: all constants enter in meters and the distance term is
scan_distance_mm/2000. -/
theorem c2_counterexample :
    (ply_to_array projId [capZeroEast] (scanDistanceOfMm 2000) 0 originZero false).map
      MergedResult.y_pts = some [-0.742] ∧
    ((-0.742 : ℚ) ≠ 0 + 2 * 0.306 * 1000 - 2000 / 2 + (-354)) := by
  constructor
  · rw [res2000_eval]; rfl
  · norm_num

/-- C2 (amended): for every merge run fed the metadata value
scan_distance_mm, the corrected y values are computed as
fixed_y = raw_y + 2*offset_y - scan_distance_mm/2000 + constant, the
constant being -0.354 (east) or -4.363 (west) for direction 0 and
4.2 (east) or -3.43 (west) otherwise, all in the same meter scale as the
camera offsets. -/
theorem c2_y_correction (proj : ℚ → ℚ → ℚ × ℚ) (caps : List Capture) (mm : ℚ) (dir : ℤ)
    (o : Origin) (r : MergedResult)
    (h : ply_to_array proj caps (scanDistanceOfMm mm) dir o false = some r) :
    r.y_pts = (caps.map (fun c => c.y.map (fun v =>
      v + 2 * (cambox c.path).2.1 - mm / 2000 +
        (if dir = 0 then (if containsWest c.path then -4.363 else -0.354)
         else (if containsWest c.path then -3.43 else 4.2))))).flatten := by
  rw [(ply_points h).2.1]
  congr 1
  refine List.map_congr_left (fun c hc => ?_)
  rw [sel_y_false, processCapture_fix_y]
  refine List.map_congr_left (fun v hv => ?_)
  show fixYVal c.path dir (scanDistanceOfMm mm) v = _
  simp only [fixYVal, yConst, scanDistanceOfMm, MM_PER_METER]
  rw [div_div]
  norm_num

/-- Witness for C2: the amended y correction evaluated on the east capture
with raw point (0, 0, 0) and scan_distance_mm = 2000. -/
theorem c2_y_correction_witness :
    ply_to_array projId [capZeroEast] (scanDistanceOfMm 2000) 0 originZero false =
      some res2000 ∧
    res2000.y_pts = ([capZeroEast].map (fun c => c.y.map (fun v =>
      v + 2 * (cambox c.path).2.1 - 2000 / 2000 +
        (if (0 : ℤ) = 0 then (if containsWest c.path then -4.363 else -0.354)
         else (if containsWest c.path then -3.43 else 4.2))))).flatten :=
  ⟨res2000_eval, c2_y_correction projId [capZeroEast] 2000 0 originZero res2000 res2000_eval⟩

/-- C3 counterexample: with use_georeferenced false the appended x value of
the east capture with raw point (0, 0, 0) is the corrected value 2.152
itself, not the anchor frame value fixed_x/1000 + origin.x the claim
demands. -/
theorem c3_counterexample :
    (ply_to_array projId [capZeroEast] 4 0 originTen false).map MergedResult.x_pts =
      some [2.152] ∧ ((2.152 : ℚ) ≠ 2.152 / 1000 + 10) := by
  constructor
  · rw [demo_eval]; rfl
  · norm_num

/-- C3 (amended): the appended z values are always the anchor frame values
(fix_z)*0.001 + origin.z regardless of the flag, but with
use_georeferenced false the appended x and y values are the corrected
values fix_x and fix_y themselves, without the meter conversion and the
origin translation. -/
theorem c3_appended_values (proj : ℚ → ℚ → ℚ × ℚ) (caps : List Capture) (d : ℚ) (dir : ℤ)
    (o : Origin) (u : Bool) (r r2 : MergedResult)
    (h : ply_to_array proj caps d dir o u = some r)
    (h2 : ply_to_array proj caps d dir o false = some r2) :
    r.z_pts = (caps.map (fun c => c.z.map (fun v =>
        (v + (cambox c.path).2.2) * 0.001 + o.z))).flatten ∧
    r2.x_pts = (caps.map (fun c => c.x.map (fixXVal c.path))).flatten ∧
    r2.y_pts = (caps.map (fun c => c.y.map (fixYVal c.path dir d))).flatten := by
  refine ⟨?_, ?_, ?_⟩
  · rw [(ply_points h).2.2]
    congr 1
    refine List.map_congr_left (fun c hc => ?_)
    show sel_z ⟨proj, d, dir, o⟩ c = _
    simp only [sel_z]
    rw [processCapture_utm_z, List.map_map]
    refine List.map_congr_left (fun v hv => ?_)
    simp [Function.comp, fixZVal]
  · rw [(ply_points h2).1]
    congr 1
  · rw [(ply_points h2).2.1]
    congr 1

/-- Witness for C3: the amended appended-value description evaluated on the
east capture with raw point (0, 0, 0), for both flag values. -/
theorem c3_appended_values_witness :
    ply_to_array projId [capZeroEast] 4 0 originTen true = some resDemoTrue ∧
    ply_to_array projId [capZeroEast] 4 0 originTen false = some resDemo ∧
    (resDemoTrue.z_pts = ([capZeroEast].map (fun c => c.z.map (fun v =>
        (v + (cambox c.path).2.2) * 0.001 + originTen.z))).flatten ∧
     resDemo.x_pts = ([capZeroEast].map (fun c => c.x.map (fixXVal c.path))).flatten ∧
     resDemo.y_pts = ([capZeroEast].map (fun c => c.y.map (fixYVal c.path 0 4))).flatten) :=
  ⟨demoTrue_eval, demo_eval,
   c3_appended_values projId [capZeroEast] 4 0 originTen true resDemoTrue resDemo
     demoTrue_eval demo_eval⟩

/-- C4: for every non-empty capture list the merge fails identically for
both flag values, and for either flag value every returned bounds tuple is
(min, max, min, max) of the projected utm y and utm x values of all
captures, in the order (min_y_utm, max_y_utm, min_x_utm, max_x_utm) with y
before x; the rig-relative values never enter the bounds. -/
theorem c4_bounds_from_utm (proj : ℚ → ℚ → ℚ × ℚ) (caps : List Capture) (d : ℚ) (dir : ℤ)
    (o : Origin) (hne : caps ≠ []) :
    ((ply_to_array proj caps d dir o true).isSome =
      (ply_to_array proj caps d dir o false).isSome) ∧
    ∀ (u : Bool) (r : MergedResult), ply_to_array proj caps d dir o u = some r →
      listMin (allUtmY ⟨proj, d, dir, o⟩ caps) = some r.bounds.1 ∧
      listMax (allUtmY ⟨proj, d, dir, o⟩ caps) = some r.bounds.2.1 ∧
      listMin (allUtmX ⟨proj, d, dir, o⟩ caps) = some r.bounds.2.2.1 ∧
      listMax (allUtmX ⟨proj, d, dir, o⟩ caps) = some r.bounds.2.2.2 :=
  ⟨ply_isSome_indep proj caps d dir o, fun _ r h => ply_bounds h⟩

/-- Witness for C4: the bounds characterization evaluated on the singleton
east capture list. -/
theorem c4_bounds_from_utm_witness :
    ([capZeroEast] ≠ ([] : List Capture)) ∧
    (((ply_to_array projId [capZeroEast] 4 0 originTen true).isSome =
      (ply_to_array projId [capZeroEast] 4 0 originTen false).isSome) ∧
    ∀ (u : Bool) (r : MergedResult),
      ply_to_array projId [capZeroEast] 4 0 originTen u = some r →
        listMin (allUtmY ⟨projId, 4, 0, originTen⟩ [capZeroEast]) = some r.bounds.1 ∧
        listMax (allUtmY ⟨projId, 4, 0, originTen⟩ [capZeroEast]) = some r.bounds.2.1 ∧
        listMin (allUtmX ⟨projId, 4, 0, originTen⟩ [capZeroEast]) = some r.bounds.2.2.1 ∧
        listMax (allUtmX ⟨projId, 4, 0, originTen⟩ [capZeroEast]) = some r.bounds.2.2.2) :=
  ⟨by simp, c4_bounds_from_utm projId [capZeroEast] 4 0 originTen (by simp)⟩

/-- C5: for every capture list whose captures all have coordinate sequences
of equal length, any returned merge result has x, y and z arrays of one
common length, namely the sum of the per-capture lengths, and the arrays
are exactly the concatenation of the per-capture selected points in
capture order, each capture keeping its original point order. -/
theorem c5_lengths_and_order (proj : ℚ → ℚ → ℚ × ℚ) (caps : List Capture) (d : ℚ)
    (dir : ℤ) (o : Origin) (u : Bool) (r : MergedResult)
    (hlen : ∀ c ∈ caps, c.x.length = c.y.length ∧ c.y.length = c.z.length)
    (h : ply_to_array proj caps d dir o u = some r) :
    (r.x_pts.length = r.y_pts.length ∧ r.y_pts.length = r.z_pts.length ∧
     r.x_pts.length = (caps.map (fun c => c.x.length)).sum) ∧
    (r.x_pts = (caps.map (sel_x ⟨proj, d, dir, o⟩ u)).flatten ∧
     r.y_pts = (caps.map (sel_y ⟨proj, d, dir, o⟩ u)).flatten ∧
     r.z_pts = (caps.map (sel_z ⟨proj, d, dir, o⟩)).flatten) := by
  obtain ⟨hx, hy, hz⟩ := ply_points h
  have mx : (caps.map (sel_x ⟨proj, d, dir, o⟩ u)).flatten.length =
      (caps.map (fun c => c.x.length)).sum := by
    rw [List.length_flatten, List.map_map]
    exact congrArg List.sum
      (List.map_congr_left (fun c hc => sel_x_length_eq _ u c (hlen c hc).1))
  have my : (caps.map (sel_y ⟨proj, d, dir, o⟩ u)).flatten.length =
      (caps.map (fun c => c.x.length)).sum := by
    rw [List.length_flatten, List.map_map]
    exact congrArg List.sum
      (List.map_congr_left (fun c hc => sel_y_length_eq _ u c (hlen c hc).1))
  have mz : (caps.map (sel_z ⟨proj, d, dir, o⟩)).flatten.length =
      (caps.map (fun c => c.x.length)).sum := by
    rw [List.length_flatten, List.map_map]
    refine congrArg List.sum (List.map_congr_left (fun c hc => ?_))
    exact (sel_z_length _ c).trans (((hlen c hc).2.symm).trans ((hlen c hc).1.symm))
  exact ⟨⟨by rw [hx, hy, mx, my], by rw [hy, hz, my, mz], by rw [hx, mx]⟩, hx, hy, hz⟩

/-- Witness for C5: the length and order statement evaluated on the
singleton east capture list. -/
theorem c5_lengths_and_order_witness :
    (∀ c ∈ [capZeroEast], c.x.length = c.y.length ∧ c.y.length = c.z.length) ∧
    ply_to_array projId [capZeroEast] 4 0 originTen false = some resDemo ∧
    ((resDemo.x_pts.length = resDemo.y_pts.length ∧
      resDemo.y_pts.length = resDemo.z_pts.length ∧
      resDemo.x_pts.length = ([capZeroEast].map (fun c => c.x.length)).sum) ∧
     (resDemo.x_pts = ([capZeroEast].map (sel_x ⟨projId, 4, 0, originTen⟩ false)).flatten ∧
      resDemo.y_pts = ([capZeroEast].map (sel_y ⟨projId, 4, 0, originTen⟩ false)).flatten ∧
      resDemo.z_pts = ([capZeroEast].map (sel_z ⟨projId, 4, 0, originTen⟩)).flatten)) :=
  ⟨by decide, demo_eval,
   c5_lengths_and_order projId [capZeroEast] 4 0 originTen false resDemo
     (by decide) demo_eval⟩

/-- C6: the Extent Writer builds the header offset from the floors of the
minima in the order (y, x, z) of the merger naming, selects the scale by
the flag, writes the merged y array to the output x axis and conversely,
and sets every per-axis extremum from the swapped arrays. -/
theorem c6_header (proj : ℚ → ℚ → ℚ × ℚ) (caps : List Capture) (p : String) (d : ℚ)
    (dir : ℤ) (o : Origin) (u : Bool) (r : MergedResult) (mny mnx mnz mxy mxx mxz : ℚ)
    (h : ply_to_array proj caps d dir o u = some r)
    (h1 : listMin r.y_pts = some mny) (h2 : listMin r.x_pts = some mnx)
    (h3 : listMin r.z_pts = some mnz) (h4 : listMax r.y_pts = some mxy)
    (h5 : listMax r.x_pts = some mxx) (h6 : listMax r.z_pts = some mxz) :
    generate_las_from_ply proj caps p d dir o u =
      some ({ offset := [⌊mny⌋, ⌊mnx⌋, ⌊mnz⌋]
              scale := if u then [0.000001, 0.000001, 0.000001] else [1, 1, 0.000001]
              x_data := r.y_pts
              y_data := r.x_pts
              z_data := r.z_pts
              x_max := mxy
              x_min := mny
              y_max := mxx
              y_min := mnx
              z_max := mxz
              z_min := mnz }, r.bounds) := by
  simp only [generate_las_from_ply, h, h1, h2, h3, h4, h5, h6]

/-- Witness for C6: the header computation evaluated on the demo run. -/
theorem c6_header_witness :
    ply_to_array projId [capZeroEast] 4 0 originTen false = some resDemo ∧
    listMin resDemo.y_pts = some (-1.742) ∧ listMin resDemo.x_pts = some 2.152 ∧
    listMin resDemo.z_pts = some 5.001135 ∧ listMax resDemo.y_pts = some (-1.742) ∧
    listMax resDemo.x_pts = some 2.152 ∧ listMax resDemo.z_pts = some 5.001135 ∧
    generate_las_from_ply projId [capZeroEast] outPath 4 0 originTen false =
      some ({ offset := [⌊(-1.742 : ℚ)⌋, ⌊(2.152 : ℚ)⌋, ⌊(5.001135 : ℚ)⌋]
              scale := if false then [0.000001, 0.000001, 0.000001] else [1, 1, 0.000001]
              x_data := resDemo.y_pts
              y_data := resDemo.x_pts
              z_data := resDemo.z_pts
              x_max := -1.742
              x_min := -1.742
              y_max := 2.152
              y_min := 2.152
              z_max := 5.001135
              z_min := 5.001135 }, resDemo.bounds) :=
  ⟨demo_eval, rfl, rfl, rfl, rfl, rfl, rfl,
   c6_header projId [capZeroEast] outPath 4 0 originTen false resDemo
     (-1.742) 2.152 5.001135 (-1.742) 2.152 5.001135
     demo_eval rfl rfl rfl rfl rfl rfl⟩

/-- C7: the bounds accumulation is monotone, every fold step can only
lower the running minima and raise the running maxima, and the final
bounds bracket every projected utm value of every capture folded in, for
both axes. -/
theorem c7_monotone_bounds (proj : ℚ → ℚ → ℚ × ℚ) (caps : List Capture) (d : ℚ)
    (dir : ℤ) (o : Origin) (u : Bool) (r : MergedResult)
    (h : ply_to_array proj caps d dir o u = some r) :
    (∀ (st : MergeState) (c : Capture) (st2 : MergeState),
        stepState ⟨proj, d, dir, o⟩ u st c = some st2 →
          st2.min_x_utm ≤ st.min_x_utm ∧ st2.min_y_utm ≤ st.min_y_utm ∧
          st.max_x_utm ≤ st2.max_x_utm ∧ st.max_y_utm ≤ st2.max_y_utm) ∧
    (∀ c ∈ caps,
      (∀ v ∈ (processCapture ⟨proj, d, dir, o⟩ c).utm_x,
          r.bounds.2.2.1 ≤ v ∧ v ≤ r.bounds.2.2.2) ∧
      (∀ v ∈ (processCapture ⟨proj, d, dir, o⟩ c).utm_y,
          r.bounds.1 ≤ v ∧ v ≤ r.bounds.2.1)) := by
  refine ⟨?_, ?_⟩
  · intro st c st2 hs
    cases he : captureExtrema ⟨proj, d, dir, o⟩ c with
    | none => rw [stepState_none he] at hs; cases hs
    | some e =>
      rw [stepState_some he] at hs
      obtain rfl := (Option.some.inj hs).symm
      exact ⟨min_le_left _ _, min_le_left _ _, le_max_left _ _, le_max_left _ _⟩
  · intro c hc
    obtain ⟨hb1, hb2, hb3, hb4⟩ := ply_bounds h
    refine ⟨fun v hv => ?_, fun v hv => ?_⟩
    · have hvall : v ∈ allUtmX ⟨proj, d, dir, o⟩ caps :=
        List.mem_flatten.mpr ⟨_, List.mem_map_of_mem _ hc, hv⟩
      exact ⟨listMin_le hb3 hvall, le_listMax hb4 hvall⟩
    · have hvall : v ∈ allUtmY ⟨proj, d, dir, o⟩ caps :=
        List.mem_flatten.mpr ⟨_, List.mem_map_of_mem _ hc, hv⟩
      exact ⟨listMin_le hb1 hvall, le_listMax hb2 hvall⟩

/-- Witness for C7: the monotonicity and bracketing statement evaluated on
the demo run. -/
theorem c7_monotone_bounds_witness :
    ply_to_array projId [capZeroEast] 4 0 originTen false = some resDemo ∧
    ((∀ (st : MergeState) (c : Capture) (st2 : MergeState),
        stepState ⟨projId, 4, 0, originTen⟩ false st c = some st2 →
          st2.min_x_utm ≤ st.min_x_utm ∧ st2.min_y_utm ≤ st.min_y_utm ∧
          st.max_x_utm ≤ st2.max_x_utm ∧ st.max_y_utm ≤ st2.max_y_utm) ∧
    (∀ c ∈ [capZeroEast],
      (∀ v ∈ (processCapture ⟨projId, 4, 0, originTen⟩ c).utm_x,
          resDemo.bounds.2.2.1 ≤ v ∧ v ≤ resDemo.bounds.2.2.2) ∧
      (∀ v ∈ (processCapture ⟨projId, 4, 0, originTen⟩ c).utm_y,
          resDemo.bounds.1 ≤ v ∧ v ≤ resDemo.bounds.2.1))) :=
  ⟨demo_eval,
   c7_monotone_bounds projId [capZeroEast] 4 0 originTen false resDemo demo_eval⟩

/-- C8 counterexample: the merge does not fail on a capture with
mismatched coordinate sequence lengths, and no ConversionError exists in
the code: the run returns a merged set whose x and y arrays have different
lengths. -/
theorem c8_counterexample :
    ply_to_array projId [capMismatch] 0 0 originZero false = some mismatchRes ∧
    mismatchRes.x_pts.length ≠ mismatchRes.y_pts.length :=
  ⟨mismatch_eval, by decide⟩

/-- C8 (amended): the merge performs no length validation and defines no
error type: whenever it returns a result, each merged axis has the sum of
the per-capture lengths of that axis independently, so mismatched captures
yield a mismatched merged set instead of an error. -/
theorem c8_no_length_validation (proj : ℚ → ℚ → ℚ × ℚ) (caps : List Capture) (d : ℚ)
    (dir : ℤ) (o : Origin) (r : MergedResult)
    (h : ply_to_array proj caps d dir o false = some r) :
    r.x_pts.length = (caps.map (fun c => c.x.length)).sum ∧
    r.y_pts.length = (caps.map (fun c => c.y.length)).sum ∧
    r.z_pts.length = (caps.map (fun c => c.z.length)).sum := by
  obtain ⟨hx, hy, hz⟩ := ply_points h
  refine ⟨?_, ?_, ?_⟩
  · rw [hx, List.length_flatten, List.map_map]
    exact congrArg List.sum (List.map_congr_left (fun c hc => sel_x_false_length _ c))
  · rw [hy, List.length_flatten, List.map_map]
    exact congrArg List.sum (List.map_congr_left (fun c hc => sel_y_false_length _ c))
  · rw [hz, List.length_flatten, List.map_map]
    exact congrArg List.sum (List.map_congr_left (fun c hc => sel_z_length _ c))

/-- Witness for C8: the per-axis length sums evaluated on the mismatched
capture, where the merged x and y arrays end up with lengths 2 and 1. -/
theorem c8_no_length_validation_witness :
    ply_to_array projId [capMismatch] 0 0 originZero false = some mismatchRes ∧
    (mismatchRes.x_pts.length = ([capMismatch].map (fun c => c.x.length)).sum ∧
     mismatchRes.y_pts.length = ([capMismatch].map (fun c => c.y.length)).sum ∧
     mismatchRes.z_pts.length = ([capMismatch].map (fun c => c.z.length)).sum) :=
  ⟨mismatch_eval,
   c8_no_length_validation projId [capMismatch] 0 0 originZero mismatchRes mismatch_eval⟩

/-- C9: for every scan_direction value other than 0 the merge behaves
exactly as for scan_direction 1, with no validation and no error. -/
theorem c9_direction_fallback (proj : ℚ → ℚ → ℚ × ℚ) (caps : List Capture) (d : ℚ)
    (dir : ℤ) (o : Origin) (u : Bool) (hdir : dir ≠ 0) :
    ply_to_array proj caps d dir o u = ply_to_array proj caps d 1 o u :=
  ply_congr (processCapture_dir_ne hdir) caps u

/-- Witness for C9: direction 7 behaves as direction 1 on the demo run. -/
theorem c9_direction_fallback_witness :
    ((7 : ℤ) ≠ 0) ∧
    ply_to_array projId [capZeroEast] 4 7 originTen false =
      ply_to_array projId [capZeroEast] 4 1 originTen false :=
  ⟨by decide, c9_direction_fallback projId [capZeroEast] 4 7 originTen false (by decide)⟩

/-- C10: on the empty input list the merge produces no result at all, it
fails, modelling the unbound accumulator and bounds locals of the Python
function. -/
theorem c10_empty_input (proj : ℚ → ℚ → ℚ × ℚ) (d : ℚ) (dir : ℤ) (o : Origin) (u : Bool) :
    ply_to_array proj [] d dir o u = none := rfl

end PlyToLas
